import Mathlib

/-!
Verification development for the availability-and-suggestion engine of the
`hey-you-free` repository.  The Python sources are shallowly embedded:

* time instants are integers (minutes); `timedelta(hours=h)` is `60*h` and
  `timedelta(minutes=m)` is `m`;
* JSON-shaped Python values are the inductive `JSON`; Python exceptions
  (`TypeError`, `ValueError`, ...) are modelled with `Except PyErr`;
* Python's `str.find`/`str.rfind`/slicing/`strip` are modelled over
  `List Char` with their exact index conventions (including `-1` results).
-/

/-- Python exception kinds raised by the embedded code paths. -/
inductive PyErr where
  | typeError
  | valueError
  | keyError
  | attributeError
deriving DecidableEq, Repr

/- ### Python string primitives, modelled over `List Char` -/

/-- Boolean prefix test: `isPrefixL sub l` iff `sub` occurs at the head of `l`. -/
def isPrefixL : List Char → List Char → Bool
  | [], _ => true
  | _ :: _, [] => false
  | a :: as, b :: bs => a = b && isPrefixL as bs

/-- Index of the first occurrence of `sub` in `l` (`none` when absent),
scanning left to right. -/
def findIdxSub (sub : List Char) : List Char → Option Nat
  | [] => if isPrefixL sub [] then some 0 else none
  | c :: cs =>
    if isPrefixL sub (c :: cs) then some 0
    else (findIdxSub sub cs).map (· + 1)

/-- Python `sub in s` (substring containment). -/
def containsSubL (s sub : List Char) : Bool :=
  (findIdxSub sub s).isSome

/-- Python `s.find(sub, st)`: absolute index of the first occurrence of `sub`
at or after position `st`, or `-1` when there is none. -/
def pyFind (s sub : List Char) (st : Nat) : Int :=
  match findIdxSub sub (s.drop st) with
  | some k => ((st + k : Nat) : Int)
  | none => -1

/-- Python `s.rfind(sub)`: index of the last occurrence of `sub`, or `-1`. -/
def pyRFind (s sub : List Char) : Int :=
  match ((List.range (s.length + 1)).filter
      (fun i => isPrefixL sub (s.drop i))).getLast? with
  | some i => (i : Int)
  | none => -1

/-- Normalisation of one Python slice bound: negative bounds count from the
end, then the result is clamped to `[0, len]`. -/
def pySliceIdx (s : List Char) (i : Int) : Int :=
  if i < 0 then max ((s.length : Int) + i) 0 else min i (s.length : Int)

/-- Python slicing `s[a:b]`: both bounds are normalised with `pySliceIdx` and
the in-between characters are returned. -/
def pySlice (s : List Char) (a b : Int) : List Char :=
  (s.drop (pySliceIdx s a).toNat).take (pySliceIdx s b - pySliceIdx s a).toNat

/-- The six characters Python's `str.strip()` removes. -/
def isPySpace (c : Char) : Bool :=
  c = ' ' || c = '\t' || c = '\n' || c = '\r' || c = '\x0b' || c = '\x0c'

/-- Python `s.strip()`: drop leading and trailing whitespace. -/
def pyStrip (s : List Char) : List Char :=
  ((s.dropWhile isPySpace).reverse.dropWhile isPySpace).reverse

/-- Python `s.replace('Z', '+00:00')` specialised to a single-character
pattern: every occurrence of `c` is replaced by `repl`. -/
def pyReplaceChar (s : List Char) (c : Char) (repl : List Char) : List Char :=
  s.flatMap (fun d => if d = c then repl else [d])

/-- JSON-shaped Python values (the result of `json.loads`): `None`, `bool`,
numbers (ints and floats, abstracted as rationals), strings, lists and dicts
(association lists with distinct keys, in insertion order). -/
inductive JSON where
  | null
  | bool (b : Bool)
  | num (q : ℚ)
  | str (s : String)
  | arr (elts : List JSON)
  | obj (fields : List (String × JSON))

/-- Lookup of a key in a Python dict (association list, first match). -/
def lookupField (fs : List (String × JSON)) (k : String) : Option JSON :=
  (fs.find? (fun kv => kv.1 = k)).map (fun kv => kv.2)

/-- Python truthiness (`bool(v)`) of a JSON-shaped value: `None`, `False`,
zero, empty string, empty list and empty dict are falsy. -/
def pyTruthy : JSON → Bool
  | .null => false
  | .bool b => b
  | .num q => q ≠ 0
  | .str s => s ≠ ""
  | .arr l => !l.isEmpty
  | .obj l => !l.isEmpty

/-- Python `v == s` where the right operand is a string: only equal strings
compare equal (numbers, bools, lists, dicts and `None` are never `==` to a
string). -/
def pyEqStr (v : JSON) (s : String) : Bool :=
  match v with
  | .str t => t = s
  | _ => false

/-- Python `k in container` for a string key `k`: dict key test, substring
test on strings, membership on lists; raises `TypeError` on `None`, bools
and numbers (not iterable). -/
def pyContains (container : JSON) (k : String) : Except PyErr Bool :=
  match container with
  | .obj fs => .ok (lookupField fs k).isSome
  | .str s => .ok (containsSubL s.toList k.toList)
  | .arr l => .ok (l.any (fun e => pyEqStr e k))
  | .null | .bool _ | .num _ => .error .typeError

/-- Python `container[k]` for a string key `k`: dict lookup (raising
`KeyError` when absent); raises `TypeError` on every non-dict value
(string/list indices must be integers). -/
def pyIndex (container : JSON) (k : String) : Except PyErr JSON :=
  match container with
  | .obj fs =>
    match lookupField fs k with
    | some v => .ok v
    | none => .error .keyError
  | _ => .error .typeError

/- ### Calendar timestamps and `datetime.fromisoformat`

Instants produced by the event normalizer are integers counting seconds (UTC)
from midnight of January 1 of year 1 in the proleptic Gregorian calendar,
mirroring `datetime.toordinal`-based arithmetic.  The model below covers the
subset of `datetime.fromisoformat` exercised by the sources:
`YYYY-MM-DD[{T, }HH:MM[:SS][{+,-}HH:MM]]`, with a missing offset read as UTC. -/

/-- Gregorian leap-year rule (as in Python's `calendar.isleap`). -/
def isLeapYear (y : Nat) : Bool :=
  (y % 4 = 0 && y % 100 ≠ 0) || y % 400 = 0

/-- Number of days of month `m` (1-12) in year `y`. -/
def daysInMonth (y m : Nat) : Nat :=
  if m = 2 then (if isLeapYear y then 29 else 28)
  else if m = 4 ∨ m = 6 ∨ m = 9 ∨ m = 11 then 30
  else 31

/-- Days in year `y` that precede month `m`. -/
def daysBeforeMonth (y m : Nat) : Nat :=
  (List.range (m - 1)).foldl (fun acc i => acc + daysInMonth y (i + 1)) 0

/-- Proleptic-Gregorian ordinal of a date (`datetime.date.toordinal`):
day 1 is January 1 of year 1. -/
def toordinal (y m d : Nat) : Nat :=
  365 * (y - 1) + (y - 1) / 4 - (y - 1) / 100 + (y - 1) / 400 +
    daysBeforeMonth y m + d

/-- UTC instant (seconds) of a timestamp with a UTC-offset in minutes. -/
def dtSeconds (y mo dy hh mi ss : Nat) (offMin : Int) : Int :=
  ((toordinal y mo dy - 1 : Nat) * 86400 + hh * 3600 + mi * 60 + ss : Nat) -
    offMin * 60

/-- Numeric value of a decimal digit character. -/
def digitVal (c : Char) : Option Nat :=
  if '0' ≤ c ∧ c ≤ '9' then some (c.toNat - 48) else none

/-- Parse exactly two decimal digits. -/
def parse2 : List Char → Option (Nat × List Char)
  | a :: b :: rest => do pure (10 * (← digitVal a) + (← digitVal b), rest)
  | _ => none

/-- Parse exactly four decimal digits. -/
def parse4 : List Char → Option (Nat × List Char)
  | a :: b :: c :: d :: rest => do
    pure (1000 * (← digitVal a) + 100 * (← digitVal b) +
      10 * (← digitVal c) + (← digitVal d), rest)
  | _ => none

/-- Consume one expected character. -/
def expectChar (c : Char) : List Char → Option (List Char)
  | d :: rest => if d = c then some rest else none
  | [] => none

/-- Optional `:SS` seconds component. -/
def parseSeconds : List Char → Option (Nat × List Char)
  | ':' :: r => do
    let (ss, r1) ← parse2 r
    if ss ≤ 59 then some (ss, r1) else none
  | r => some (0, r)

/-- Optional `+HH:MM` / `-HH:MM` UTC offset (in minutes); absent means naive,
which the model reads as UTC. -/
def parseOffset : List Char → Option Int
  | [] => some 0
  | sgn :: r =>
    if sgn = '+' ∨ sgn = '-' then do
      let (hh, r1) ← parse2 r
      let r2 ← expectChar ':' r1
      let (mi, r3) ← parse2 r2
      if r3 = [] ∧ hh ≤ 23 ∧ mi ≤ 59 then
        some (if sgn = '+' then (hh * 60 + mi : Nat) else -(hh * 60 + mi : Nat))
      else none
    else none

/-- Model of `datetime.fromisoformat` on the subset used by the sources;
`none` models a raised `ValueError`. -/
def fromisoChars (l : List Char) : Option Int := do
  let (y, r1) ← parse4 l
  let r2 ← expectChar '-' r1
  let (mo, r3) ← parse2 r2
  let r4 ← expectChar '-' r3
  let (dy, r5) ← parse2 r4
  if 1 ≤ y ∧ 1 ≤ mo ∧ mo ≤ 12 ∧ 1 ≤ dy ∧ dy ≤ daysInMonth y mo then
    match r5 with
    | [] => some (dtSeconds y mo dy 0 0 0 0)
    | sep :: r6 =>
      if sep = 'T' ∨ sep = ' ' then do
        let (hh, r7) ← parse2 r6
        let r8 ← expectChar ':' r7
        let (mi, r9) ← parse2 r8
        if hh ≤ 23 ∧ mi ≤ 59 then do
          let (ss, r10) ← parseSeconds r9
          let off ← parseOffset r10
          some (dtSeconds y mo dy hh mi ss off)
        else none
      else none
  else none

/- ### Event normalizer, `calendar_demo.py::parse_event_time` (lines 16-36)

A calendar event is a Python dict.  `parse_event_time` returns the parsed
`(start, end)` pair, `none` for the `return None, None` path, and a raised
exception (`ValueError` on an unparsable timestamp, `TypeError` /
`AttributeError` on ill-typed fields) as `Except.error`. -/

/-- Parse one side (`start` or `end`) of an event: `dateTime` first, then the
all-day `date` (midnight UTC), else `none`. -/
def parseEventSide (side : JSON) : Except PyErr (Option Int) := do
  let hasDT ← pyContains side "dateTime"
  if hasDT then do
    let v ← pyIndex side "dateTime"
    match v with
    | .str s =>
      match fromisoChars (pyReplaceChar s.toList 'Z' ("+00:00".toList)) with
      | some i => pure (some i)
      | none => throw .valueError
    | _ => throw .attributeError
  else do
    let hasD ← pyContains side "date"
    if hasD then do
      let v ← pyIndex side "date"
      match v with
      | .str s =>
        match fromisoChars (s.toList ++ ("T00:00:00+00:00".toList)) with
        | some i => pure (some i)
        | none => throw .valueError
      | _ => throw .typeError
    else pure none

/-- Model of `parse_event_time(event)`: parse the start side, returning `(None, None)`
as soon as a side has neither `dateTime` nor `date`. -/
def parse_event_time (event : List (String × JSON)) :
    Except PyErr (Option (Int × Int)) := do
  let start := (lookupField event "start").getD (.obj [])
  let endv := (lookupField event "end").getD (.obj [])
  match ← parseEventSide start with
  | none => pure none
  | some st =>
    match ← parseEventSide endv with
    | none => pure none
    | some et => pure (some (st, et))

/-- The busy-time collection of `find_free_times` (lines 73-78): parse every
event of the concatenated list and keep the pairs that parsed. -/
def collect_busy_times (events : List (List (String × JSON))) :
    Except PyErr (List (Int × Int)) :=
  events.foldlM
    (fun acc ev => do
      match ← parse_event_time ev with
      | some (s, e) => pure (acc ++ [(s, e)])
      | none => pure acc)
    []

/-- The event filter of `format_events_for_ai` (`meeting_scheduler.py` lines
15-34): the start instants of the surviving events, in input order (sorting
and text rendering are downstream of this filter).  `KeyError` and
`ValueError` are caught (the event is skipped); `TypeError` and
`AttributeError` from ill-typed fields propagate. -/
def format_events_for_ai_starts (events : List (List (String × JSON))) :
    Except PyErr (List Int) :=
  events.foldlM
    (fun acc ev =>
      match lookupField ev "start" with
      | none => pure acc
      | some sv =>
        match sv with
        | .obj sfs =>
          match lookupField sfs "dateTime" with
          | none => pure acc
          | some (.str s) =>
            match fromisoChars (pyReplaceChar s.toList 'Z' ("+00:00".toList)) with
            | some i => pure (acc ++ [i])
            | none => pure acc
          | some _ => throw .attributeError
        | _ => throw .typeError)
    []

/-- A side whose dict has neither a `dateTime` nor a `date` key parses to
`none` (the `return None, None` path). -/
theorem parseEventSide_none (sfs : List (String × JSON))
    (h2 : lookupField sfs "dateTime" = none)
    (h3 : lookupField sfs "date" = none) :
    parseEventSide (.obj sfs) = .ok none := by
  simp only [parseEventSide, pyContains, h2, h3, Option.isSome]
  rfl

/-- C7 counterexample: normalization does not silently drop every malformed
event.  An event whose `start.dateTime` does not parse makes
`parse_event_time` raise `ValueError` (it is not dropped), and an event with
`start > end` is kept in the busy list (it is not excluded):
`0001-01-02 > 0001-01-01` yet the pair `(86400, 0)` is returned. -/
theorem normalization_drops_malformed_counterexample :
    parse_event_time
        [("start", .obj [("dateTime", .str "garbage")]),
         ("end", .obj [("dateTime", .str "garbage")])] =
      .error .valueError ∧
    collect_busy_times
        [[("start", .obj [("dateTime", .str "0001-01-02T00:00:00Z")]),
          ("end", .obj [("dateTime", .str "0001-01-01T00:00:00Z")])]] =
      .ok [(86400, 0)] ∧ ((0 : Int) < 86400) := by
  exact ⟨rfl, rfl, by norm_num⟩

/-- C7 amended: events whose `start` has neither `dateTime` nor `date` are
silently dropped (`parse_event_time` returns `(None, None)` and the busy-time
collection skips them without error); but an event whose timestamps parse is
kept even when `start > end`, and an event whose `start.dateTime` string does
not parse is dropped silently only by `format_events_for_ai` — in
`parse_event_time` it raises `ValueError` instead (see the counterexample). -/
theorem normalization_drop_behavior :
    (∀ (ev : List (String × JSON)) (sfs : List (String × JSON)),
        (lookupField ev "start").getD (.obj []) = .obj sfs →
        lookupField sfs "dateTime" = none →
        lookupField sfs "date" = none →
        parse_event_time ev = .ok none) ∧
    (∀ (ev : List (String × JSON)) (s e : Int),
        parse_event_time ev = .ok (some (s, e)) →
        collect_busy_times [ev] = .ok [(s, e)]) ∧
    (∀ (ev : List (String × JSON)) (sfs : List (String × JSON)) (s : String),
        lookupField ev "start" = some (.obj sfs) →
        lookupField sfs "dateTime" = some (.str s) →
        fromisoChars (pyReplaceChar s.toList 'Z' ("+00:00".toList)) = none →
        format_events_for_ai_starts [ev] = .ok []) := by
  refine ⟨?_, ?_, ?_⟩
  · intro ev sfs h1 h2 h3
    simp only [parse_event_time, h1, parseEventSide_none sfs h2 h3]
    rfl
  · intro ev s e h
    simp only [collect_busy_times, List.foldlM, h]
    rfl
  · intro ev sfs s h1 h2 h3
    simp only [format_events_for_ai_starts, List.foldlM, h1, h2]
    rw [h3]
    rfl

/-- Witness for the amended C7 at concrete events. -/
theorem normalization_drop_behavior_witness :
    parse_event_time
        [("start", .obj []),
         ("end", .obj [("dateTime", .str "0001-01-01T00:00:00Z")])] = .ok none ∧
    collect_busy_times
        [[("start", .obj [("dateTime", .str "0001-01-02T00:00:00Z")]),
          ("end", .obj [("dateTime", .str "0001-01-01T00:00:00Z")])]] =
      .ok [(86400, 0)] ∧
    format_events_for_ai_starts
        [[("start", .obj [("dateTime", .str "garbage")])]] = .ok [] := by
  refine ⟨normalization_drop_behavior.1 _ [] rfl rfl rfl,
    normalization_drop_behavior.2.1 _ 86400 0 rfl,
    normalization_drop_behavior.2.2 _ [("dateTime", .str "garbage")] "garbage"
      rfl rfl rfl⟩

/- ### Free-slot finder, `calendar_demo.py::find_free_times` (lines 84-110)

The loop works on the combined, sorted list of busy `(start, end)` pairs.
A free slot is a dict `{'start': t, 'end': t+duration, 'duration_hours': d}`. -/

/-- One returned free slot of `find_free_times`: `start`, `end` and the
requested duration in hours. -/
structure Slot where
  start : Int
  stop : Int
  durationHours : Int
deriving DecidableEq, Repr

/-- The conflict test of `find_free_times`: busy interval `iv` conflicts with
cursor `t` iff `t < iv.end` and `t + duration > iv.start`. -/
def conflictsWith (d : Int) (t : Int) (iv : Int × Int) : Bool :=
  t < iv.2 && t + 60 * d > iv.1

/-- The `while current_time < end_dt` sweep of `find_free_times`: scan the
busy list for the first conflicting interval; on a conflict move the cursor
to the end of that busy period and then 30 minutes further; otherwise record
the slot when it fits in the window and advance by one hour. -/
def find_free_times_loop (busy : List (Int × Int)) (endDt : Int) (d : Int)
    (t : Int) : List Slot :=
  if _h : t < endDt then
    match hf : busy.find? (conflictsWith d t) with
    | some iv => find_free_times_loop busy endDt d (iv.2 + 30)
    | none =>
      (if t + 60 * d ≤ endDt then [⟨t, t + 60 * d, d⟩] else []) ++
        find_free_times_loop busy endDt d (t + 60)
  else []
termination_by (endDt - t).toNat
decreasing_by
  · have hp := List.find?_some hf
    simp only [conflictsWith, Bool.and_eq_true, decide_eq_true_eq] at hp
    omega
  · omega

/-- Model of `find_free_times` after event parsing: concatenate the two busy lists,
sort them by start time, and run the sweep from the window start. -/
def find_free_slots (philBusy chrisBusy : List (Int × Int))
    (startDt endDt : Int) (d : Int) : List Slot :=
  find_free_times_loop
    ((philBusy ++ chrisBusy).mergeSort (fun a b => a.1 ≤ b.1)) endDt d startDt

/-- Unconditional one-step unfolding of the sweep, convenient for `simp`. -/
theorem find_free_times_loop_unfold (busy : List (Int × Int)) (endDt d t : Int) :
    find_free_times_loop busy endDt d t =
      if t < endDt then
        match busy.find? (conflictsWith d t) with
        | some iv => find_free_times_loop busy endDt d (iv.2 + 30)
        | none =>
          (if t + 60 * d ≤ endDt then [⟨t, t + 60 * d, d⟩] else []) ++
            find_free_times_loop busy endDt d (t + 60)
      else [] := by
  rw [find_free_times_loop.eq_def]
  by_cases h1 : t < endDt
  · rw [dif_pos h1, if_pos h1]
    cases h2 : busy.find? (conflictsWith d t) <;> simp [h2]
  · rw [dif_neg h1, if_neg h1]

/-- On a conflict the sweep moves the cursor to `iv.end + 30` and retries. -/
theorem find_free_times_loop_conflict (busy : List (Int × Int)) (endDt d t : Int)
    (iv : Int × Int) (h1 : t < endDt)
    (h2 : busy.find? (conflictsWith d t) = some iv) :
    find_free_times_loop busy endDt d t =
      find_free_times_loop busy endDt d (iv.2 + 30) := by
  rw [find_free_times_loop.eq_def, dif_pos h1, h2]

/-- When no busy interval conflicts, the sweep records the slot (when it fits
the window) and advances by one hour. -/
theorem find_free_times_loop_free (busy : List (Int × Int)) (endDt d t : Int)
    (h1 : t < endDt) (h2 : busy.find? (conflictsWith d t) = none) :
    find_free_times_loop busy endDt d t =
      (if t + 60 * d ≤ endDt then [⟨t, t + 60 * d, d⟩] else []) ++
        find_free_times_loop busy endDt d (t + 60) := by
  rw [find_free_times_loop.eq_def, dif_pos h1, h2]

/-- The sweep stops once the cursor reaches the window end. -/
theorem find_free_times_loop_stop (busy : List (Int × Int)) (endDt d t : Int)
    (h1 : ¬ t < endDt) : find_free_times_loop busy endDt d t = [] := by
  rw [find_free_times_loop.eq_def, dif_neg h1]

/-- Soundness invariant of the sweep: every slot it returns starts at or after
the cursor, spans exactly the duration, ends inside the window, and overlaps
no busy interval of the scanned list. -/
theorem find_free_times_loop_sound (busy : List (Int × Int)) (endDt d : Int) :
    ∀ (n : Nat) (t : Int), (endDt - t).toNat ≤ n →
      ∀ s ∈ find_free_times_loop busy endDt d t,
        t ≤ s.start ∧ s.stop = s.start + 60 * d ∧ s.stop ≤ endDt ∧
          ∀ iv ∈ busy, ¬(s.start < iv.2 ∧ s.stop > iv.1) := by
  intro n
  induction n with
  | zero =>
    intro t ht s hs
    rw [find_free_times_loop_stop _ _ _ _ (by omega)] at hs
    cases hs
  | succ n ih =>
    intro t ht s hs
    by_cases h1 : t < endDt
    · cases h2 : busy.find? (conflictsWith d t) with
      | some iv =>
        rw [find_free_times_loop_conflict _ _ _ _ iv h1 h2] at hs
        have hp := List.find?_some h2
        simp only [conflictsWith, Bool.and_eq_true, decide_eq_true_eq] at hp
        have hrec := ih (iv.2 + 30) (by omega) s hs
        exact ⟨by omega, hrec.2.1, hrec.2.2.1, hrec.2.2.2⟩
      | none =>
        rw [find_free_times_loop_free _ _ _ _ h1 h2] at hs
        rcases List.mem_append.mp hs with hmem | hmem
        · by_cases hg : t + 60 * d ≤ endDt
          · rw [if_pos hg] at hmem
            rw [List.mem_singleton] at hmem
            subst hmem
            refine ⟨le_refl _, rfl, hg, ?_⟩
            intro iv hiv hcon
            have hno := List.find?_eq_none.mp h2 iv hiv
            simp only [conflictsWith, Bool.and_eq_true, decide_eq_true_eq,
              not_and] at hno
            exact absurd hcon.2 (by simpa using hno hcon.1)
          · rw [if_neg hg] at hmem
            cases hmem
        · have hrec := ih (t + 60) (by omega) s hmem
          exact ⟨by omega, hrec.2.1, hrec.2.2.1, hrec.2.2.2⟩
    · rw [find_free_times_loop_stop _ _ _ _ h1] at hs
      cases hs

/-- C4: every slot returned by the free-slot finder starts at or after the
window start, spans exactly the requested duration, ends at or before the
window end, and overlaps (half-open) no busy interval of either input set. -/
theorem find_free_slots_inside_window_and_disjoint (A B : List (Int × Int))
    (ws we d : Int) (s : Slot) (hs : s ∈ find_free_slots A B ws we d) :
    ws ≤ s.start ∧ s.stop = s.start + 60 * d ∧ s.stop ≤ we ∧
      ∀ iv ∈ A ++ B, ¬(s.start < iv.2 ∧ s.stop > iv.1) := by
  have h := find_free_times_loop_sound
    ((A ++ B).mergeSort (fun a b => a.1 ≤ b.1)) we d (we - ws).toNat ws
    (le_refl _) s hs
  exact ⟨h.1, h.2.1, h.2.2.1, fun iv hiv =>
    h.2.2.2 iv (List.mem_mergeSort.mpr hiv)⟩

/-- C3 counterexample: with busy interval `(0, 90)`, window `[0, 240)` and a
one-hour duration, the cursor at `t = 0` conflicts with `I = (0, 90)`, yet the
sweep does not behave as if the cursor were advanced to
`max (t + 30) I.end = 90`: the code advances to `I.end + 30 = 120`, so the
returned slots differ from what the claimed advance would produce. -/
theorem conflict_advance_not_max_counterexample :
    ((0 : Int) < 240) ∧
      ([((0 : Int), (90 : Int))].find? (conflictsWith 1 0) = some (0, 90)) ∧
      find_free_times_loop [((0 : Int), (90 : Int))] 240 1 0 ≠
        find_free_times_loop [((0 : Int), (90 : Int))] 240 1 (max (0 + 30) 90) := by
  refine ⟨by norm_num, by norm_num [List.find?, conflictsWith], ?_⟩
  have h1 : find_free_times_loop [((0 : Int), (90 : Int))] 240 1 0 =
      [⟨120, 180, 1⟩, ⟨180, 240, 1⟩] := by
    simp [find_free_times_loop_unfold, List.find?, conflictsWith]
  have h2 : find_free_times_loop [((0 : Int), (90 : Int))] 240 1 (max (0 + 30) 90) =
      [⟨90, 150, 1⟩, ⟨150, 210, 1⟩] := by
    simp [find_free_times_loop_unfold, List.find?, conflictsWith]
  rw [h1, h2]
  decide

/-- C3 amended: whenever the cursor `t` conflicts with the first conflicting
busy interval `iv` found in the scan, the sweep continues exactly as if the
cursor were advanced to `iv.end + 30` minutes (end of the busy period, plus
the 30-minute conflict step) — not `max (t + 30) iv.end`. -/
theorem conflict_advance_is_end_plus_step (busy : List (Int × Int))
    (endDt d t : Int) (iv : Int × Int) (h1 : t < endDt)
    (h2 : busy.find? (conflictsWith d t) = some iv) :
    find_free_times_loop busy endDt d t =
      find_free_times_loop busy endDt d (iv.2 + 30) := by
  rw [find_free_times_loop.eq_def, dif_pos h1, h2]

/-- Witness for the amended C3 at a concrete conflicting input. -/
theorem conflict_advance_is_end_plus_step_witness :
    ((0 : Int) < 240) ∧
      ([((0 : Int), (90 : Int))].find? (conflictsWith 1 0) = some (0, 90)) ∧
      find_free_times_loop [((0 : Int), (90 : Int))] 240 1 0 =
        find_free_times_loop [((0 : Int), (90 : Int))] 240 1 ((0, (90 : Int)).2 + 30) := by
  refine ⟨by norm_num, by norm_num [List.find?, conflictsWith], ?_⟩
  exact conflict_advance_is_end_plus_step [((0 : Int), (90 : Int))] 240 1 0
    (0, 90) (by norm_num) (by norm_num [List.find?, conflictsWith])

/-- Hourly sweep over an empty busy list: starting `60 * n` minutes before the
window end, the sweep returns one slot per hour boundary. -/
theorem find_free_times_loop_nil_hourly (ws : Int) :
    ∀ (n : Nat) (t : Int), t = ws + 1440 - 60 * n → n ≤ 24 →
      find_free_times_loop [] (ws + 1440) 1 t =
        (List.range n).map (fun i => ⟨t + 60 * i, t + 60 * i + 60, 1⟩) := by
  intro n
  induction n with
  | zero =>
    intro t ht _
    rw [find_free_times_loop_stop _ _ _ _ (by omega)]
    simp
  | succ n ih =>
    intro t ht hn
    rw [find_free_times_loop_free [] (ws + 1440) 1 t (by omega) rfl]
    rw [if_pos (by omega)]
    rw [ih (t + 60) (by push_cast at ht; omega) (by omega)]
    rw [List.range_succ_eq_map]
    simp only [List.map_cons, List.map_map, List.singleton_append]
    congr 1
    · simp
    · apply List.map_congr_left
      intro i _
      simp only [Function.comp]
      congr 1 <;> push_cast <;> ring

/-- C8: with both calendars empty, a window of exactly 24 hours and a one-hour
duration, the finder returns exactly the 24 hourly slots starting at the
window start; in particular the last slot ends exactly at the window end. -/
theorem find_free_slots_empty_24h (ws : Int) :
    find_free_slots [] [] ws (ws + 1440) 1 =
      (List.range 24).map (fun i => ⟨ws + 60 * i, ws + 60 * i + 60, 1⟩) := by
  unfold find_free_slots
  simp only [List.append_nil, List.mergeSort_nil]
  exact find_free_times_loop_nil_hourly ws 24 ws (by norm_num) (by norm_num)

/-- Witness for C4 at a concrete input. -/
theorem find_free_slots_inside_window_and_disjoint_witness :
    (⟨0, 60, 1⟩ : Slot) ∈ find_free_slots [] [] 0 60 1 ∧
      ((0 : Int) ≤ 0 ∧ (60 : Int) = 0 + 60 * 1 ∧ (60 : Int) ≤ 60 ∧
        ∀ iv ∈ ([] ++ [] : List (Int × Int)), ¬((0 : Int) < iv.2 ∧ (60 : Int) > iv.1)) := by
  have hmem : (⟨0, 60, 1⟩ : Slot) ∈ find_free_slots [] [] 0 60 1 := by
    simp [find_free_slots, find_free_times_loop_unfold, List.find?]
  exact ⟨hmem, find_free_slots_inside_window_and_disjoint [] [] 0 60 1 ⟨0, 60, 1⟩ hmem⟩

/- ### Suggestion response extractor, `gemini_client.py::parse_gemini_response`
(lines 79-89)

Only the payload-locating step is modelled (the subsequent `json.loads` and
validation are separate stages).  Python's `str.find` conventions, including
its `-1` failure result flowing into a slice end, are kept exactly. -/

/-- The backtick character (written by code to avoid a bare backtick). -/
def btickC : Char := '\x60'

/-- The opening fence marker searched for first, `"```json"`. -/
def fenceJson : List Char := "```json".toList

/-- The closing fence marker, `"```"`. -/
def fence3 : List Char := "```".toList

/-- Opening brace character. -/
def lbraceC : Char := '\x7b'

/-- Closing brace character. -/
def rbraceC : Char := '\x7d'

/-- The extraction step of `parse_gemini_response`: fenced block first (slice
from after `"```json"` to the next `"```"`, then `strip()`), else first
`"{"` to last `"}"`, else the whole text. -/
def parse_gemini_response_extract (t : List Char) : List Char :=
  if containsSubL t fenceJson then
    pyStrip (pySlice t (((pyFind t fenceJson 0 + 7).toNat : Nat) : Int)
      (pyFind t fence3 (pyFind t fenceJson 0 + 7).toNat))
  else if containsSubL t [lbraceC] && containsSubL t [rbraceC] then
    pySlice t (pyFind t [lbraceC] 0) (pyRFind t [rbraceC] + 1)
  else t

/-- A list is always a prefix of itself extended by anything. -/
theorem isPrefixL_self_append (sub rest : List Char) :
    isPrefixL sub (sub ++ rest) = true := by
  induction sub with
  | nil => rfl
  | cons a as ih => simp [isPrefixL, ih]

/-- First-occurrence index at a boundary: when `sub` starts with a character
absent from `pre`, its first occurrence in `pre ++ sub ++ rest` is exactly at
`pre.length`. -/
theorem findIdxSub_boundary (sub pre rest : List Char) (c : Char)
    (hhead : sub.head? = some c) (hpre : c ∉ pre) :
    findIdxSub sub (pre ++ (sub ++ rest)) = some pre.length := by
  obtain ⟨cs, rfl⟩ : ∃ cs, sub = c :: cs := by
    cases sub with
    | nil => cases hhead
    | cons a as => exact ⟨as, by cases hhead; rfl⟩
  induction pre with
  | nil =>
    have hself := isPrefixL_self_append (c :: cs) rest
    simp only [List.cons_append] at hself
    simp [findIdxSub, hself]
  | cons p ps ih =>
    have hc : ¬(c = p) := fun h => hpre (by simp [h])
    have hps : c ∉ ps := fun h => hpre (by simp [h])
    have ih' := ih hps
    simp only [List.cons_append] at ih'
    simp [findIdxSub, isPrefixL, hc, ih']

/-- Python `str.find` at a boundary, searching from the start. -/
theorem pyFind_boundary (pre sub rest : List Char) (c : Char)
    (hhead : sub.head? = some c) (hpre : c ∉ pre) :
    pyFind (pre ++ (sub ++ rest)) sub 0 = pre.length := by
  simp [pyFind, findIdxSub_boundary sub pre rest c hhead hpre]

/-- Python slice of the middle third of a concatenation. -/
theorem pySlice_extract (xs ys zs : List Char) :
    pySlice (xs ++ ys ++ zs) xs.length (xs.length + ys.length) = ys := by
  have hn : ((xs ++ ys ++ zs).length : Int) =
      (xs.length : Int) + ys.length + zs.length := by
    push_cast [List.length_append]
    ring
  have ha : pySliceIdx (xs ++ ys ++ zs) xs.length = xs.length := by
    unfold pySliceIdx
    rw [if_neg (by omega), min_eq_left (by omega)]
  have hb : pySliceIdx (xs ++ ys ++ zs) (xs.length + ys.length) =
      (xs.length : Int) + ys.length := by
    unfold pySliceIdx
    rw [if_neg (by omega), min_eq_left (by omega)]
  unfold pySlice
  rw [ha, hb]
  have h1 : ((xs.length : Int)).toNat = xs.length := by omega
  have h2 : ((xs.length : Int) + ys.length - xs.length).toNat = ys.length := by
    omega
  rw [h1, h2]
  rw [List.append_assoc, List.drop_left, List.take_left]

/-- A singleton pattern is a prefix exactly of lists headed by it. -/
theorem isPrefixL_singleton (ch : Char) (l : List Char) :
    isPrefixL [ch] l = true ↔ l.head? = some ch := by
  cases l with
  | nil => simp [isPrefixL]
  | cons a as => simp [isPrefixL, eq_comm]

/-- The last element of a filtered range is the largest index satisfying the
predicate. -/
theorem getLast?_filter_range (p : Nat → Bool) (n k : Nat) (hk : k < n)
    (hp : p k = true) (hlast : ∀ j, k < j → j < n → p j = false) :
    ((List.range n).filter p).getLast? = some k := by
  obtain ⟨m, rfl⟩ : ∃ m, n = (k + 1) + m := ⟨n - (k + 1), by omega⟩
  rw [List.range_add, List.filter_append]
  have h2 : ((List.range m).map (fun x => (k + 1) + x)).filter p = [] := by
    rw [List.filter_eq_nil_iff]
    intro a ha
    simp only [List.mem_map, List.mem_range] at ha
    obtain ⟨x, hx, rfl⟩ := ha
    simp [hlast ((k + 1) + x) (by omega) (by omega)]
  rw [h2, List.append_nil, List.range_succ, List.filter_append]
  simp [hp, List.getLast?_concat]

/-- Python `str.rfind` of a single character placed after a tail that avoids it. -/
theorem pyRFind_boundary (pre post : List Char) (ch : Char)
    (hpost : ch ∉ post) :
    pyRFind (pre ++ ch :: post) [ch] = pre.length := by
  unfold pyRFind
  rw [getLast?_filter_range _ _ pre.length
    (by simp [List.length_append]; omega)
    (by rw [List.drop_left]; simp [isPrefixL])
    ?_]
  intro j hj1 hj2
  obtain ⟨i, rfl⟩ : ∃ i, j = pre.length + (1 + i) := ⟨j - pre.length - 1, by omega⟩
  rw [List.drop_append]
  by_contra hcon
  rw [Bool.not_eq_false, isPrefixL_singleton] at hcon
  have hmem : ch ∈ (ch :: post).drop (1 + i) := by
    cases hd : (ch :: post).drop (1 + i) with
    | nil => rw [hd] at hcon; cases hcon
    | cons a as =>
      rw [hd] at hcon
      simp only [List.head?_cons, Option.some.injEq] at hcon
      simp [hcon]
  have hdrop : (ch :: post).drop (1 + i) = post.drop i := by
    simp [Nat.add_comm 1 i, List.drop_succ_cons]
  rw [hdrop] at hmem
  exact hpost (List.mem_of_mem_drop hmem)

/-- A single character is contained (as a substring) iff it is a member. -/
theorem containsSubL_of_memChar (ch : Char) (l : List Char) (h : ch ∈ l) :
    containsSubL l [ch] = true := by
  induction l with
  | nil => cases h
  | cons c cs ih =>
    unfold containsSubL findIdxSub
    by_cases hp : isPrefixL [ch] (c :: cs) = true
    · simp [hp]
    · have hc : ¬ ch = c := by
        intro he
        exact hp (by simp [isPrefixL, he])
      have hcs : ch ∈ cs := by
        cases h with
        | head => exact absurd rfl hc
        | tail _ hmem => exact hmem
      have hrec := ih hcs
      simp only [containsSubL] at hrec
      cases hfi : findIdxSub [ch] cs with
      | none => rw [hfi] at hrec; cases hrec
      | some k => simp [hp, hfi]

/-- Rule 1 of the extractor on fenced input split as
`prose ++ "```json" ++ payload ++ "```" ++ trailing prose`: the result is the
payload, stripped of surrounding whitespace. -/
theorem extract_rule_fenced (pre mid post : List Char)
    (hpre : btickC ∉ pre) (hmid : btickC ∉ mid) :
    parse_gemini_response_extract
        (pre ++ (fenceJson ++ (mid ++ (fence3 ++ post)))) = pyStrip mid := by
  have hfj : findIdxSub fenceJson (pre ++ (fenceJson ++ (mid ++ (fence3 ++ post)))) =
      some pre.length :=
    findIdxSub_boundary fenceJson pre (mid ++ (fence3 ++ post)) btickC rfl hpre
  have hcont : containsSubL (pre ++ (fenceJson ++ (mid ++ (fence3 ++ post)))) fenceJson = true := by
    simp [containsSubL, hfj]
  have hfind0 : pyFind (pre ++ (fenceJson ++ (mid ++ (fence3 ++ post)))) fenceJson 0 =
      (pre.length : Int) := by
    simp [pyFind, hfj]
  have hdrop : (pre ++ (fenceJson ++ (mid ++ (fence3 ++ post)))).drop (pre.length + 7) =
      mid ++ (fence3 ++ post) := by
    rw [← List.append_assoc]
    have hlen : (pre ++ fenceJson).length = pre.length + 7 := by
      simp [fenceJson]
    rw [← hlen, List.drop_left]
  have hf3 : findIdxSub fence3 (mid ++ (fence3 ++ post)) = some mid.length :=
    findIdxSub_boundary fence3 mid post btickC rfl hmid
  have hjs : ((pre.length : Int) + 7).toNat = pre.length + 7 := by omega
  have hfind2 : pyFind (pre ++ (fenceJson ++ (mid ++ (fence3 ++ post)))) fence3
      (pre.length + 7) = ((pre.length + 7 + mid.length : Nat) : Int) := by
    simp [pyFind, hdrop, hf3]
  have hslice : pySlice (pre ++ (fenceJson ++ (mid ++ (fence3 ++ post))))
      ((pre.length + 7 : Nat) : Int) ((pre.length + 7 + mid.length : Nat) : Int) = mid := by
    have h := pySlice_extract (pre ++ fenceJson) mid (fence3 ++ post)
    have hlen : (pre ++ fenceJson).length = pre.length + 7 := by
      simp [fenceJson]
    rw [hlen] at h
    rw [List.append_assoc, List.append_assoc] at h
    have hc1 : ((pre.length + 7 : Nat) : Int) = ((pre.length + 7 : Nat) : Int) := rfl
    have hc2 : ((pre.length + 7 : Nat) : Int) + (mid.length : Int) =
        ((pre.length + 7 + mid.length : Nat) : Int) := by push_cast; ring
    rw [hc2] at h
    exact h
  unfold parse_gemini_response_extract
  rw [if_pos hcont, hfind0, hjs, hfind2, hslice]

/-- Rule 2 of the extractor: with no `"```json"` fence, the slice runs from
the first `"{"` to the last `"}"`, inclusive. -/
theorem extract_rule_braces (pre mid post : List Char)
    (hno : containsSubL (pre ++ (lbraceC :: (mid ++ (rbraceC :: post)))) fenceJson = false)
    (hpre : lbraceC ∉ pre) (hpost : rbraceC ∉ post) :
    parse_gemini_response_extract (pre ++ (lbraceC :: (mid ++ (rbraceC :: post)))) =
      lbraceC :: (mid ++ [rbraceC]) := by
  have hfl : findIdxSub [lbraceC] (pre ++ (lbraceC :: (mid ++ (rbraceC :: post)))) =
      some pre.length := by
    have h := findIdxSub_boundary [lbraceC] pre (mid ++ (rbraceC :: post)) lbraceC rfl hpre
    simpa using h
  have hc1 : containsSubL (pre ++ (lbraceC :: (mid ++ (rbraceC :: post)))) [lbraceC] = true := by
    simp [containsSubL, hfl]
  have hc2 : containsSubL (pre ++ (lbraceC :: (mid ++ (rbraceC :: post)))) [rbraceC] = true := by
    apply containsSubL_of_memChar
    simp
  have hfind1 : pyFind (pre ++ (lbraceC :: (mid ++ (rbraceC :: post)))) [lbraceC] 0 =
      (pre.length : Int) := by
    simp [pyFind, hfl]
  have hrf : pyRFind (pre ++ (lbraceC :: (mid ++ (rbraceC :: post)))) [rbraceC] =
      ((pre.length + 1 + mid.length : Nat) : Int) := by
    have h := pyRFind_boundary (pre ++ (lbraceC :: mid)) post rbraceC hpost
    have hshape : (pre ++ (lbraceC :: mid)) ++ (rbraceC :: post) =
        pre ++ (lbraceC :: (mid ++ (rbraceC :: post))) := by
      simp
    rw [hshape] at h
    rw [h]
    simp [List.length_append]
    omega
  have hslice : pySlice (pre ++ (lbraceC :: (mid ++ (rbraceC :: post))))
      ((pre.length : Nat) : Int) ((pre.length + 1 + mid.length + 1 : Nat) : Int) =
      lbraceC :: (mid ++ [rbraceC]) := by
    have h := pySlice_extract pre (lbraceC :: (mid ++ [rbraceC])) post
    have hshape : pre ++ (lbraceC :: (mid ++ [rbraceC])) ++ post =
        pre ++ (lbraceC :: (mid ++ (rbraceC :: post))) := by
      simp
    rw [hshape] at h
    have hlen : (lbraceC :: (mid ++ [rbraceC])).length = mid.length + 2 := by
      simp
    rw [hlen] at h
    have hc : ((pre.length : Int) + (mid.length + 2 : Nat)) =
        ((pre.length + 1 + mid.length + 1 : Nat) : Int) := by push_cast; ring
    rw [hc] at h
    exact h
  unfold parse_gemini_response_extract
  rw [if_neg (by simp [hno])]
  rw [if_pos (by simp [hc1, hc2])]
  rw [hfind1, hrf]
  have hc : ((pre.length + 1 + mid.length : Nat) : Int) + 1 =
      ((pre.length + 1 + mid.length + 1 : Nat) : Int) := by push_cast; ring
  rw [hc]
  exact hslice

/-- Rule 3 of the extractor: with no fence and one of the braces missing, the
whole text is the candidate. -/
theorem extract_rule_whole (t : List Char)
    (h1 : containsSubL t fenceJson = false)
    (h2 : containsSubL t [lbraceC] = false ∨ containsSubL t [rbraceC] = false) :
    parse_gemini_response_extract t = t := by
  unfold parse_gemini_response_extract
  rw [if_neg (by simp [h1])]
  rw [if_neg (by rcases h2 with h | h <;> simp [h])]

/-- C6 counterexample: for input `"```json x ```"`, the text between the
opening fence (which ends at index 7) and the next fence (at index 10) is
`" x "`, but the extractor returns `"x"` — it additionally strips surrounding
whitespace, so it does not return the between-fences text itself. -/
theorem extract_between_fences_counterexample :
    pySlice ("```json x ```".toList)
        (pyFind ("```json x ```".toList) fenceJson 0 + 7)
        (pyFind ("```json x ```".toList) fence3 7) = " x ".toList ∧
    parse_gemini_response_extract ("```json x ```".toList) ≠ " x ".toList := by
  constructor
  · decide
  · decide

/-- C6 amended: the extractor applies its rules in order, first match wins —
(1) on fenced input it returns the text between the `"```json"` fence and the
next `"```"` fence, stripped of surrounding whitespace; (2) else, with both
braces present, the substring from the first `"{"` to the last `"}"`; (3)
else the whole text; and the concrete scenario yields exactly the brace
payload with no fence markers. -/
theorem extract_payload_rules_in_order :
    (∀ pre mid post : List Char, btickC ∉ pre → btickC ∉ mid →
      parse_gemini_response_extract
          (pre ++ (fenceJson ++ (mid ++ (fence3 ++ post)))) = pyStrip mid) ∧
    (∀ pre mid post : List Char,
      containsSubL (pre ++ (lbraceC :: (mid ++ (rbraceC :: post)))) fenceJson = false →
      lbraceC ∉ pre → rbraceC ∉ post →
      parse_gemini_response_extract (pre ++ (lbraceC :: (mid ++ (rbraceC :: post)))) =
        lbraceC :: (mid ++ [rbraceC])) ∧
    (∀ t : List Char, containsSubL t fenceJson = false →
      containsSubL t [lbraceC] = false ∨ containsSubL t [rbraceC] = false →
      parse_gemini_response_extract t = t) ∧
    parse_gemini_response_extract
        ("Here are suggestions:\n```json\n\x7b...\x7d\n```\nEnjoy!".toList) =
      "\x7b...\x7d".toList := by
  refine ⟨extract_rule_fenced, extract_rule_braces, extract_rule_whole, ?_⟩
  decide

/-- Witness for the amended C6 at concrete inputs for each rule. -/
theorem extract_payload_rules_in_order_witness :
    parse_gemini_response_extract
        ("a".toList ++ (fenceJson ++ (" b ".toList ++ (fence3 ++ "c".toList)))) =
      pyStrip (" b ".toList) ∧
    parse_gemini_response_extract
        ("p".toList ++ (lbraceC :: ("m".toList ++ (rbraceC :: "q".toList)))) =
      lbraceC :: ("m".toList ++ [rbraceC]) ∧
    parse_gemini_response_extract ("hello".toList) = "hello".toList := by
  refine ⟨extract_payload_rules_in_order.1 _ _ _ (by decide) (by decide),
    extract_payload_rules_in_order.2.1 _ _ _ (by decide) (by decide) (by decide),
    extract_payload_rules_in_order.2.2.1 _ (by decide) (Or.inl (by decide))⟩

/-- A slice `s[a:-1]` with a non-negative start drops the final character of
`s.drop a`. -/
theorem pySlice_neg_one (s : List Char) (a : Nat) :
    pySlice s (a : Int) (-1) = (s.drop a).dropLast := by
  have hA : pySliceIdx s (a : Int) = min (a : Int) (s.length : Int) := by
    unfold pySliceIdx
    rw [if_neg (by omega)]
  have hB : pySliceIdx s (-1) = max ((s.length : Int) + -1) 0 := by
    unfold pySliceIdx
    rw [if_pos (by omega)]
  unfold pySlice
  rw [hA, hB]
  rcases Nat.lt_or_ge a s.length with h | h
  · rw [max_eq_left (by omega), min_eq_left (by omega)]
    have hlen : (s.drop a).length = s.length - a := List.length_drop a s
    rw [List.dropLast_eq_take, hlen]
    rw [show ((a : Int)).toNat = a from by omega]
    rw [show ((s.length : Int) + -1 - (a : Int)).toNat = s.length - a - 1 from by omega]
  · rw [min_eq_right (by omega)]
    rw [show ((s.length : Int)).toNat = s.length from by omega]
    rw [show s.drop s.length = [] from List.drop_eq_nil_of_le (le_refl _)]
    rw [List.drop_eq_nil_of_le h]
    simp

/-- C9: when the text contains the `"```json"` fence but no `"```"` at or
after the fence's end, the failed fence search yields `-1`, which as a slice
end removes the final character: the extractor returns the text following the
fence with its last character removed, then stripped of whitespace. -/
theorem extract_unclosed_fence (t : List Char)
    (h1 : containsSubL t fenceJson = true)
    (h2 : findIdxSub fence3 (t.drop (pyFind t fenceJson 0 + 7).toNat) = none) :
    parse_gemini_response_extract t =
      pyStrip ((t.drop (pyFind t fenceJson 0 + 7).toNat).dropLast) := by
  unfold parse_gemini_response_extract
  rw [if_pos h1]
  set js := (pyFind t fenceJson 0 + 7).toNat with hjs
  have hje : pyFind t fence3 js = -1 := by
    unfold pyFind
    rw [h2]
  rw [hje, pySlice_neg_one]

/-- Witness for C9 at a concrete input with an unclosed fence. -/
theorem extract_unclosed_fence_witness :
    containsSubL ("```json hi!".toList) fenceJson = true ∧
    findIdxSub fence3
        (("```json hi!".toList).drop
          (pyFind ("```json hi!".toList) fenceJson 0 + 7).toNat) = none ∧
    parse_gemini_response_extract ("```json hi!".toList) =
      pyStrip ((("```json hi!".toList).drop
        (pyFind ("```json hi!".toList) fenceJson 0 + 7).toNat).dropLast) := by
  exact ⟨by decide, by decide, extract_unclosed_fence _ (by decide) (by decide)⟩

/- ### Suggestion validator, `meeting_scheduler.py` (lines 161-233)

`validate_event_dictionary` and `validate_meeting_suggestions` are modelled
over `JSON` in the `Except PyErr` monad: `field in event`, `event[field]`
and `datetime.strptime` raise on ill-typed values exactly as in Python
(only `ValueError` from `strptime` is caught by the source).  The f-string
error messages are abstracted into the `VError` inductive, one constructor
per `errors.append` site, carrying the interpolated data. -/

/-- CPython `_strptime` month pattern `1[0-2]|0[1-9]|[1-9]`, alternatives in
order (no backtracking is ever observable before a `-` separator since the
competing alternative would require a digit where `-` stands). -/
def matchMonth : List Char → Option (Nat × List Char)
  | c1 :: c2 :: rest =>
    if c1 = '1' ∧ '0' ≤ c2 ∧ c2 ≤ '2' then some (10 + (c2.toNat - 48), rest)
    else if c1 = '0' ∧ '1' ≤ c2 ∧ c2 ≤ '9' then some (c2.toNat - 48, rest)
    else if '1' ≤ c1 ∧ c1 ≤ '9' then some (c1.toNat - 48, c2 :: rest)
    else none
  | [c1] => if '1' ≤ c1 ∧ c1 ≤ '9' then some (c1.toNat - 48, []) else none
  | [] => none

/-- CPython `_strptime` day pattern `3[01]|[12]\d|0[1-9]|[1-9]`. -/
def matchDay : List Char → Option (Nat × List Char)
  | c1 :: c2 :: rest =>
    if c1 = '3' ∧ '0' ≤ c2 ∧ c2 ≤ '1' then some (30 + (c2.toNat - 48), rest)
    else if '1' ≤ c1 ∧ c1 ≤ '2' ∧ '0' ≤ c2 ∧ c2 ≤ '9' then
      some (10 * (c1.toNat - 48) + (c2.toNat - 48), rest)
    else if c1 = '0' ∧ '1' ≤ c2 ∧ c2 ≤ '9' then some (c2.toNat - 48, rest)
    else if '1' ≤ c1 ∧ c1 ≤ '9' then some (c1.toNat - 48, c2 :: rest)
    else none
  | [c1] => if '1' ≤ c1 ∧ c1 ≤ '9' then some (c1.toNat - 48, []) else none
  | [] => none

/-- CPython `_strptime` hour pattern `2[0-3]|[0-1]\d|\d`. -/
def matchHour : List Char → Option (Nat × List Char)
  | c1 :: c2 :: rest =>
    if c1 = '2' ∧ '0' ≤ c2 ∧ c2 ≤ '3' then some (20 + (c2.toNat - 48), rest)
    else if '0' ≤ c1 ∧ c1 ≤ '1' ∧ '0' ≤ c2 ∧ c2 ≤ '9' then
      some (10 * (c1.toNat - 48) + (c2.toNat - 48), rest)
    else if '0' ≤ c1 ∧ c1 ≤ '9' then some (c1.toNat - 48, c2 :: rest)
    else none
  | [c1] => if '0' ≤ c1 ∧ c1 ≤ '9' then some (c1.toNat - 48, []) else none
  | [] => none

/-- CPython `_strptime` minute pattern `[0-5]\d|\d`. -/
def matchMinute : List Char → Option (Nat × List Char)
  | c1 :: c2 :: rest =>
    if '0' ≤ c1 ∧ c1 ≤ '5' ∧ '0' ≤ c2 ∧ c2 ≤ '9' then
      some (10 * (c1.toNat - 48) + (c2.toNat - 48), rest)
    else if '0' ≤ c1 ∧ c1 ≤ '9' then some (c1.toNat - 48, c2 :: rest)
    else none
  | [c1] => if '0' ≤ c1 ∧ c1 ≤ '9' then some (c1.toNat - 48, []) else none
  | [] => none

/-- Whether `datetime.strptime(s, "%Y-%m-%d")` succeeds: four-digit year, month and
day per the `_strptime` patterns, the whole string consumed, and the date
constructible (`year >= 1`, day within the month). -/
def validYmd (s : String) : Bool :=
  (do
    let (y, r1) ← parse4 s.toList
    let r2 ← expectChar '-' r1
    let (mo, r3) ← matchMonth r2
    let r4 ← expectChar '-' r3
    let (dy, r5) ← matchDay r4
    if r5 = [] ∧ 1 ≤ y ∧ dy ≤ daysInMonth y mo then some () else none).isSome

/-- Whether `datetime.strptime(s, "%H:%M")` succeeds. -/
def validHM (s : String) : Bool :=
  (do
    let (_, r1) ← matchHour s.toList
    let r2 ← expectChar ':' r1
    let (_, r3) ← matchMinute r2
    if r3 = [] then some () else none).isSome

/-- Model of `datetime.strptime` applied to a JSON value: non-strings raise
`TypeError` (which the source does not catch); for strings the format check
runs (its failure is the caught `ValueError`). -/
def pyStrptime (fmtCheck : String → Bool) (v : JSON) : Except PyErr Bool :=
  match v with
  | .str s => .ok (fmtCheck s)
  | _ => .error .typeError

/-- Validation errors, one constructor per `errors.append` site of
`meeting_scheduler.py`, carrying the data the f-string message interpolates;
`atSuggestion i e` is the `"Suggestion i: ..."` prefix (1-based `i`). -/
inductive VError where
  | missingField (f : String)
  | emptyField (f : String)
  | invalidEnergy (f : String) (v : JSON)
  | invalidMeetingType (v : JSON)
  | invalidDate (v : JSON)
  | invalidTime (v : JSON)
  | invalidConfidence (v : JSON)
  | notDictionary
  | missingSuggestionsKey
  | suggestionsNotList
  | noSuggestions
  | atSuggestion (i : Nat) (e : VError)

/-- The required suggestion fields, in the order the source checks them. -/
def requiredFields : List String :=
  ["date", "time", "duration", "reasoning", "phil_energy", "chris_energy",
   "meeting_type"]

/-- The admissible energy levels. -/
def valid_energy : List String := ["High", "Medium", "Low"]

/-- The admissible meeting types (lines 181-183 of the source). -/
def valid_meeting_types : List String :=
  ["Coffee", "Casual lunch", "Evening drinks", "Activity"]

/-- One iteration of the required-fields loop: missing field, then empty
field (`not event[field] or event[field] == ""`). -/
def checkRequiredField (event : JSON) (f : String) :
    Except PyErr (List VError) := do
  let present ← pyContains event f
  if !present then pure [.missingField f]
  else do
    let v ← pyIndex event f
    if !(pyTruthy v) || pyEqStr v "" then pure [.emptyField f] else pure []

/-- The whole required-fields loop, accumulating errors in order. -/
def collectFieldErrors (event : JSON) : Except PyErr (List VError) :=
  requiredFields.foldlM
    (fun acc f => do pure (acc ++ (← checkRequiredField event f))) []

/-- The energy-level check for one of the two energy fields. -/
def checkEnergy (event : JSON) (f : String) : Except PyErr (List VError) := do
  let present ← pyContains event f
  if present then do
    let v ← pyIndex event f
    if !(valid_energy.any (fun e => pyEqStr v e)) then
      pure [.invalidEnergy f v]
    else pure []
  else pure []

/-- The meeting-type check: membership in the fixed `valid_meeting_types`. -/
def checkMeetingType (event : JSON) : Except PyErr (List VError) := do
  let present ← pyContains event "meeting_type"
  if present then do
    let v ← pyIndex event "meeting_type"
    if !(valid_meeting_types.any (fun e => pyEqStr v e)) then
      pure [.invalidMeetingType v]
    else pure []
  else pure []

/-- The date-format check (`%Y-%m-%d`), run when `date` is present and
truthy. -/
def checkDate (event : JSON) : Except PyErr (List VError) := do
  let present ← pyContains event "date"
  if present then do
    let v ← pyIndex event "date"
    if pyTruthy v then do
      let okFmt ← pyStrptime validYmd v
      if !okFmt then pure [.invalidDate v] else pure []
    else pure []
  else pure []

/-- The time-format check (`%H:%M`). -/
def checkTime (event : JSON) : Except PyErr (List VError) := do
  let present ← pyContains event "time"
  if present then do
    let v ← pyIndex event "time"
    if pyTruthy v then do
      let okFmt ← pyStrptime validHM v
      if !okFmt then pure [.invalidTime v] else pure []
    else pure []
  else pure []

/-- The confidence check: present and not `None` must be `int`/`float`
(Python bools are ints) within `[0.0, 1.0]`. -/
def checkConfidence (event : JSON) : Except PyErr (List VError) := do
  let present ← pyContains event "confidence"
  if present then do
    let v ← pyIndex event "confidence"
    match v with
    | .null => pure []
    | .num q => if ¬(0 ≤ q ∧ q ≤ 1) then pure [.invalidConfidence v] else pure []
    | .bool _ => pure []
    | _ => pure [.invalidConfidence v]
  else pure []

/-- Model of `validate_event_dictionary(event)`: all checks in source order, returning
`(len(errors) == 0, errors)`. -/
def validate_event_dictionary (event : JSON) :
    Except PyErr (Bool × List VError) := do
  let e1 ← collectFieldErrors event
  let e2 ← checkEnergy event "phil_energy"
  let e3 ← checkEnergy event "chris_energy"
  let e4 ← checkMeetingType event
  let e5 ← checkDate event
  let e6 ← checkTime event
  let e7 ← checkConfidence event
  let errs := e1 ++ e2 ++ e3 ++ e4 ++ e5 ++ e6 ++ e7
  pure (errs.isEmpty, errs)

/-- One iteration of the per-suggestion loop of
`validate_meeting_suggestions`: validate the element (`p.1` is the 0-based
index) and, when invalid, append its errors under the `"Suggestion i+1"`
prefix. -/
def suggFoldStep (acc : List VError) (p : Nat × JSON) :
    Except PyErr (List VError) := do
  let (isValid, es) ← validate_event_dictionary p.2
  if !isValid then pure (acc ++ es.map (VError.atSuggestion (p.1 + 1)))
  else pure acc

/-- The whole per-suggestion loop (`for i, suggestion in enumerate(...)`). -/
def collectSuggestionErrors (l : List JSON) : Except PyErr (List VError) :=
  l.enum.foldlM suggFoldStep []

/-- Model of `validate_meeting_suggestions(suggestions)`: top-level shape checks with
early return, then per-suggestion validation with `"Suggestion i+1"`
prefixes. -/
def validate_meeting_suggestions (suggestions : JSON) :
    Except PyErr (Bool × List VError) :=
  match suggestions with
  | .obj fs =>
    match lookupField fs "suggestions" with
    | none => .ok (false, [.missingSuggestionsKey])
    | some (.arr l) =>
      if l.isEmpty then .ok (false, [.noSuggestions])
      else do
        let errs ← collectSuggestionErrors l
        pure (errs.isEmpty, errs)
    | some _ => .ok (false, [.suggestionsNotList])
  | _ => .ok (false, [.notDictionary])

/-- C1: the code restricts `meeting_type` to the fixed enumeration.  A
payload whose single suggestion has every field valid except that its
`meeting_type` is the non-empty string `"Creative brainstorm"` is rejected
with an invalid-meeting-type error, while the same payload with
`meeting_type` `"Coffee"` is fully valid — contradicting the spec (and the
repository's own `test_remove_strict_meeting_types.py`), which say only
non-emptiness is enforced. -/
theorem meeting_type_restriction_failing_input :
    validate_meeting_suggestions (.obj [("suggestions", .arr [.obj
        [("date", .str "2025-01-20"), ("time", .str "14:30"),
         ("duration", .str "1 hour"), ("reasoning", .str "fun"),
         ("phil_energy", .str "High"), ("chris_energy", .str "Medium"),
         ("meeting_type", .str "Creative brainstorm")]])]) =
      .ok (false,
        [.atSuggestion 1 (.invalidMeetingType (.str "Creative brainstorm"))]) ∧
    validate_meeting_suggestions (.obj [("suggestions", .arr [.obj
        [("date", .str "2025-01-20"), ("time", .str "14:30"),
         ("duration", .str "1 hour"), ("reasoning", .str "fun"),
         ("phil_energy", .str "High"), ("chris_energy", .str "Medium"),
         ("meeting_type", .str "Coffee")]])]) = .ok (true, []) :=
  ⟨rfl, rfl⟩

/-- C5: the flat two-key energy shape and the nested `user_energies` shape do
not validate identically.  With the same suggestion content, the flat payload
is valid while the nested payload is rejected with missing `phil_energy` /
`chris_energy` errors (the nested map is ignored by the validator) —
contradicting the spec's "both shapes must validate identically" and the
repository's own tests, which pass the nested shape and expect validity. -/
theorem energy_shapes_validate_differently :
    validate_meeting_suggestions (.obj [("suggestions", .arr [.obj
        [("date", .str "2025-01-20"), ("time", .str "14:00"),
         ("duration", .str "1.5 hours"), ("reasoning", .str "ok"),
         ("meeting_type", .str "Coffee"),
         ("phil_energy", .str "High"), ("chris_energy", .str "Medium")]])]) =
      .ok (true, []) ∧
    validate_meeting_suggestions (.obj [("suggestions", .arr [.obj
        [("date", .str "2025-01-20"), ("time", .str "14:00"),
         ("duration", .str "1.5 hours"), ("reasoning", .str "ok"),
         ("meeting_type", .str "Coffee"),
         ("user_energies", .obj [("phil", .str "High"),
                                 ("chris", .str "Medium")])]])]) =
      .ok (false, [.atSuggestion 1 (.missingField "phil_energy"),
                   .atSuggestion 1 (.missingField "chris_energy")]) :=
  ⟨rfl, rfl⟩

/-- C2 counterexample: the validator is not total on JSON-shaped input.  When
an element of `suggestions` is a number, `field not in event` raises
`TypeError` (a number is not iterable), which nothing catches. -/
theorem validator_totality_counterexample :
    validate_meeting_suggestions (.obj [("suggestions", .arr [.num 5])]) =
      .error .typeError :=
  rfl

/-- A `date`/`time` field value that cannot make `strptime` raise: absent,
a string, or falsy (so the format check is skipped). -/
def strOrNotTruthy : Option JSON → Bool
  | none => true
  | some (.str _) => true
  | some v => !pyTruthy v

/-- A suggestion element on which `validate_event_dictionary` cannot raise:
an object whose `date` and `time`, when present and truthy, are strings. -/
def safeSugg : JSON → Bool
  | .obj fs =>
    strOrNotTruthy (lookupField fs "date") &&
      strOrNotTruthy (lookupField fs "time")
  | _ => false

/-- A payload on which `validate_meeting_suggestions` cannot raise: whenever
it is an object whose `suggestions` is a list, every element is `safeSugg`. -/
def safeInput : JSON → Bool
  | .obj fs =>
    match lookupField fs "suggestions" with
    | some (.arr l) => l.all safeSugg
    | _ => true
  | _ => true

/-- Reduction of a successful `Except` bind (the monadic `do` skeleton). -/
theorem ok_bind {α β : Type} (a : α) (f : α → Except PyErr β) :
    (Except.ok a >>= f) = f a := rfl

/-- The required-field check never raises on a dict event. -/
theorem checkRequiredField_ok (fs : List (String × JSON)) (f : String) :
    ∃ es, checkRequiredField (.obj fs) f = .ok es := by
  cases hl : lookupField fs f with
  | none =>
    refine ⟨[.missingField f], ?_⟩
    simp only [checkRequiredField, pyContains, hl]
    rfl
  | some v =>
    refine ⟨if !(pyTruthy v) || pyEqStr v "" then [.emptyField f] else [], ?_⟩
    simp only [checkRequiredField, pyContains, pyIndex, hl, ok_bind,
      Option.isSome_some, Bool.not_true, Bool.false_eq_true, if_false]
    cases hv : (!(pyTruthy v) || pyEqStr v "") <;> simp [hv] <;> rfl

/-- The per-field error-collecting fold never raises when each check is
raise-free. -/
theorem foldChecks_ok (g : String → Except PyErr (List VError))
    (l : List String) (h : ∀ f ∈ l, ∃ es, g f = .ok es) :
    ∀ acc, ∃ out,
      l.foldlM (fun acc f => do pure (acc ++ (← g f))) acc = .ok out := by
  induction l with
  | nil => exact fun acc => ⟨acc, rfl⟩
  | cons f fsl ih =>
    intro acc
    obtain ⟨es, hes⟩ := h f (List.mem_cons_self f fsl)
    obtain ⟨out, hout⟩ := ih (fun x hx => h x (List.mem_cons_of_mem f hx))
      (acc ++ es)
    refine ⟨out, ?_⟩
    rw [List.foldlM_cons]
    simp only [hes, ok_bind]
    exact hout

/-- The whole required-fields loop never raises on a dict event. -/
theorem collectFieldErrors_ok (fs : List (String × JSON)) :
    ∃ es, collectFieldErrors (.obj fs) = .ok es := by
  exact foldChecks_ok (checkRequiredField (.obj fs)) requiredFields
    (fun f _ => checkRequiredField_ok fs f) []

/-- The energy check never raises on a dict event. -/
theorem checkEnergy_ok (fs : List (String × JSON)) (f : String) :
    ∃ es, checkEnergy (.obj fs) f = .ok es := by
  cases hl : lookupField fs f with
  | none => exact ⟨[], by simp only [checkEnergy, pyContains, hl]; rfl⟩
  | some v =>
    refine ⟨if !(valid_energy.any (fun e => pyEqStr v e)) then
      [.invalidEnergy f v] else [], ?_⟩
    simp only [checkEnergy, pyContains, pyIndex, hl, ok_bind,
      Option.isSome_some, if_true]
    cases hv : (!(valid_energy.any (fun e => pyEqStr v e))) <;> simp [hv] <;> rfl

/-- The meeting-type check never raises on a dict event. -/
theorem checkMeetingType_ok (fs : List (String × JSON)) :
    ∃ es, checkMeetingType (.obj fs) = .ok es := by
  cases hl : lookupField fs "meeting_type" with
  | none => exact ⟨[], by simp only [checkMeetingType, pyContains, hl]; rfl⟩
  | some v =>
    refine ⟨if !(valid_meeting_types.any (fun e => pyEqStr v e)) then
      [.invalidMeetingType v] else [], ?_⟩
    simp only [checkMeetingType, pyContains, pyIndex, hl, ok_bind,
      Option.isSome_some, if_true]
    cases hv : (!(valid_meeting_types.any (fun e => pyEqStr v e))) <;> simp [hv] <;> rfl

/-- The date check never raises when `date` is absent, a string, or falsy. -/
theorem checkDate_ok (fs : List (String × JSON))
    (h : strOrNotTruthy (lookupField fs "date") = true) :
    ∃ es, checkDate (.obj fs) = .ok es := by
  cases hl : lookupField fs "date" with
  | none => exact ⟨[], by simp only [checkDate, pyContains, hl]; rfl⟩
  | some v =>
    rw [hl] at h
    cases v with
    | str s =>
      refine ⟨if pyTruthy (.str s) then
        (if !(validYmd s) then [.invalidDate (.str s)] else []) else [], ?_⟩
      simp only [checkDate, pyContains, pyIndex, hl, pyStrptime, ok_bind,
        Option.isSome_some, if_true]
      cases ht : pyTruthy (JSON.str s) <;> cases hf : validYmd s <;>
        simp [ht, hf] <;> rfl
    | null =>
      exact ⟨[], by simp only [checkDate, pyContains, pyIndex, hl, ok_bind,
        Option.isSome_some, if_true, pyTruthy]; rfl⟩
    | bool b =>
      cases b with
      | false =>
        exact ⟨[], by simp only [checkDate, pyContains, pyIndex, hl, ok_bind,
          Option.isSome_some, if_true, pyTruthy]; rfl⟩
      | true => simp [strOrNotTruthy, pyTruthy] at h
    | num q =>
      have hq : q = 0 := by
        by_contra hq
        simp [strOrNotTruthy, pyTruthy, hq] at h
      subst hq
      refine ⟨[], ?_⟩
      simp only [checkDate, pyContains, pyIndex, hl, ok_bind,
        Option.isSome_some, if_true, pyTruthy]
      simp
      rfl
    | arr l =>
      cases l with
      | nil =>
        exact ⟨[], by simp only [checkDate, pyContains, pyIndex, hl, ok_bind,
          Option.isSome_some, if_true, pyTruthy]; rfl⟩
      | cons a as => simp [strOrNotTruthy, pyTruthy] at h
    | obj l =>
      cases l with
      | nil =>
        exact ⟨[], by simp only [checkDate, pyContains, pyIndex, hl, ok_bind,
          Option.isSome_some, if_true, pyTruthy]; rfl⟩
      | cons a as => simp [strOrNotTruthy, pyTruthy] at h

/-- The time check never raises when `time` is absent, a string, or falsy. -/
theorem checkTime_ok (fs : List (String × JSON))
    (h : strOrNotTruthy (lookupField fs "time") = true) :
    ∃ es, checkTime (.obj fs) = .ok es := by
  cases hl : lookupField fs "time" with
  | none => exact ⟨[], by simp only [checkTime, pyContains, hl]; rfl⟩
  | some v =>
    rw [hl] at h
    cases v with
    | str s =>
      refine ⟨if pyTruthy (.str s) then
        (if !(validHM s) then [.invalidTime (.str s)] else []) else [], ?_⟩
      simp only [checkTime, pyContains, pyIndex, hl, pyStrptime, ok_bind,
        Option.isSome_some, if_true]
      cases ht : pyTruthy (JSON.str s) <;> cases hf : validHM s <;>
        simp [ht, hf] <;> rfl
    | null =>
      exact ⟨[], by simp only [checkTime, pyContains, pyIndex, hl, ok_bind,
        Option.isSome_some, if_true, pyTruthy]; rfl⟩
    | bool b =>
      cases b with
      | false =>
        exact ⟨[], by simp only [checkTime, pyContains, pyIndex, hl, ok_bind,
          Option.isSome_some, if_true, pyTruthy]; rfl⟩
      | true => simp [strOrNotTruthy, pyTruthy] at h
    | num q =>
      have hq : q = 0 := by
        by_contra hq
        simp [strOrNotTruthy, pyTruthy, hq] at h
      subst hq
      refine ⟨[], ?_⟩
      simp only [checkTime, pyContains, pyIndex, hl, ok_bind,
        Option.isSome_some, if_true, pyTruthy]
      simp
      rfl
    | arr l =>
      cases l with
      | nil =>
        exact ⟨[], by simp only [checkTime, pyContains, pyIndex, hl, ok_bind,
          Option.isSome_some, if_true, pyTruthy]; rfl⟩
      | cons a as => simp [strOrNotTruthy, pyTruthy] at h
    | obj l =>
      cases l with
      | nil =>
        exact ⟨[], by simp only [checkTime, pyContains, pyIndex, hl, ok_bind,
          Option.isSome_some, if_true, pyTruthy]; rfl⟩
      | cons a as => simp [strOrNotTruthy, pyTruthy] at h

/-- The confidence check never raises on a dict event. -/
theorem checkConfidence_ok (fs : List (String × JSON)) :
    ∃ es, checkConfidence (.obj fs) = .ok es := by
  cases hl : lookupField fs "confidence" with
  | none => exact ⟨[], by simp only [checkConfidence, pyContains, hl]; rfl⟩
  | some v =>
    cases v with
    | num q =>
      refine ⟨if ¬(0 ≤ q ∧ q ≤ 1) then [.invalidConfidence (.num q)] else [], ?_⟩
      simp only [checkConfidence, pyContains, pyIndex, hl, ok_bind,
        Option.isSome_some, if_true]
      by_cases hq : (0 ≤ q ∧ q ≤ 1) <;> simp [hq] <;> rfl
    | null => exact ⟨[], by simp only [checkConfidence, pyContains, pyIndex,
        hl, ok_bind, Option.isSome_some, if_true]; rfl⟩
    | bool b => exact ⟨[], by simp only [checkConfidence, pyContains, pyIndex,
        hl, ok_bind, Option.isSome_some, if_true]; rfl⟩
    | str s => exact ⟨[.invalidConfidence (.str s)],
        by simp only [checkConfidence, pyContains, pyIndex, hl, ok_bind,
          Option.isSome_some, if_true]; rfl⟩
    | arr l => exact ⟨[.invalidConfidence (.arr l)],
        by simp only [checkConfidence, pyContains, pyIndex, hl, ok_bind,
          Option.isSome_some, if_true]; rfl⟩
    | obj l => exact ⟨[.invalidConfidence (.obj l)],
        by simp only [checkConfidence, pyContains, pyIndex, hl, ok_bind,
          Option.isSome_some, if_true]; rfl⟩

/-- Fact: `validate_event_dictionary` never raises on a safe suggestion. -/
theorem validate_event_dictionary_ok (s : JSON) (h : safeSugg s = true) :
    ∃ r, validate_event_dictionary s = .ok r := by
  cases s with
  | obj fs =>
    have hd : strOrNotTruthy (lookupField fs "date") = true := by
      simp only [safeSugg, Bool.and_eq_true] at h
      exact h.1
    have ht : strOrNotTruthy (lookupField fs "time") = true := by
      simp only [safeSugg, Bool.and_eq_true] at h
      exact h.2
    obtain ⟨e1, h1⟩ := collectFieldErrors_ok fs
    obtain ⟨e2, h2⟩ := checkEnergy_ok fs "phil_energy"
    obtain ⟨e3, h3⟩ := checkEnergy_ok fs "chris_energy"
    obtain ⟨e4, h4⟩ := checkMeetingType_ok fs
    obtain ⟨e5, h5⟩ := checkDate_ok fs hd
    obtain ⟨e6, h6⟩ := checkTime_ok fs ht
    obtain ⟨e7, h7⟩ := checkConfidence_ok fs
    refine ⟨((e1 ++ e2 ++ e3 ++ e4 ++ e5 ++ e6 ++ e7).isEmpty,
      e1 ++ e2 ++ e3 ++ e4 ++ e5 ++ e6 ++ e7), ?_⟩
    simp only [validate_event_dictionary, h1, h2, h3, h4, h5, h6, h7, ok_bind]
    rfl
  | null => simp [safeSugg] at h
  | bool b => simp [safeSugg] at h
  | num q => simp [safeSugg] at h
  | str s => simp [safeSugg] at h
  | arr l => simp [safeSugg] at h

/-- The per-suggestion fold never raises when each element is raise-free. -/
theorem suggFold_ok (l' : List (Nat × JSON))
    (h : ∀ p ∈ l', ∃ r, validate_event_dictionary p.2 = .ok r) :
    ∀ acc, ∃ out, l'.foldlM suggFoldStep acc = .ok out := by
  induction l' with
  | nil => exact fun acc => ⟨acc, rfl⟩
  | cons p ps ih =>
    intro acc
    obtain ⟨⟨b, es⟩, hbe⟩ := h p (List.mem_cons_self p ps)
    have hrec := ih (fun x hx => h x (List.mem_cons_of_mem p hx))
    rw [List.foldlM_cons]
    simp only [suggFoldStep, hbe, ok_bind]
    cases b with
    | false =>
      obtain ⟨out, hout⟩ := hrec (acc ++ es.map (VError.atSuggestion (p.1 + 1)))
      exact ⟨out, by simpa using hout⟩
    | true =>
      obtain ⟨out, hout⟩ := hrec acc
      exact ⟨out, by simpa using hout⟩

/-- C2 amended: `validate_meeting_suggestions` returns an `(is_valid, errors)`
pair and never raises on every JSON-shaped input that is safe: whenever the
input is an object whose `suggestions` value is a list, every list element is
an object in which `date` and `time`, when present and truthy, are strings.
(Outside this set it can raise, e.g. on a numeric suggestion element — see
the counterexample.) -/
theorem validator_total_on_safe_inputs (X : JSON) (h : safeInput X = true) :
    ∃ r, validate_meeting_suggestions X = .ok r := by
  cases X with
  | obj fs =>
    cases hl : lookupField fs "suggestions" with
    | none =>
      exact ⟨(false, [.missingSuggestionsKey]),
        by simp only [validate_meeting_suggestions, hl]⟩
    | some v =>
      cases v with
      | arr l =>
        have hsafe : l.all safeSugg = true := by
          simp only [safeInput, hl] at h
          exact h
        by_cases hemp : l.isEmpty
        · exact ⟨(false, [.noSuggestions]),
            by simp only [validate_meeting_suggestions, hl, hemp, if_true]⟩
        · have hall : ∀ p ∈ l.enum, ∃ r, validate_event_dictionary p.2 = .ok r := by
            intro p hp
            rcases p with ⟨i, x⟩
            have hmem := List.mem_enum hp
            have hx : x ∈ l := hmem.2 ▸ List.getElem_mem hmem.1
            exact validate_event_dictionary_ok x
              (List.all_eq_true.mp hsafe x hx)
          obtain ⟨out, hout⟩ := suggFold_ok l.enum hall []
          refine ⟨(out.isEmpty, out), ?_⟩
          simp only [validate_meeting_suggestions, hl, hemp, if_false,
            collectSuggestionErrors, hout, ok_bind]
          rfl
      | null => exact ⟨(false, [.suggestionsNotList]),
          by simp only [validate_meeting_suggestions, hl]⟩
      | bool b => exact ⟨(false, [.suggestionsNotList]),
          by simp only [validate_meeting_suggestions, hl]⟩
      | num q => exact ⟨(false, [.suggestionsNotList]),
          by simp only [validate_meeting_suggestions, hl]⟩
      | str s => exact ⟨(false, [.suggestionsNotList]),
          by simp only [validate_meeting_suggestions, hl]⟩
      | obj l => exact ⟨(false, [.suggestionsNotList]),
          by simp only [validate_meeting_suggestions, hl]⟩
  | null => exact ⟨(false, [.notDictionary]), rfl⟩
  | bool b => exact ⟨(false, [.notDictionary]), rfl⟩
  | num q => exact ⟨(false, [.notDictionary]), rfl⟩
  | str s => exact ⟨(false, [.notDictionary]), rfl⟩
  | arr l => exact ⟨(false, [.notDictionary]), rfl⟩

/-- Witness for the amended C2 at a concrete safe payload. -/
theorem validator_total_on_safe_inputs_witness :
    safeInput (.obj [("suggestions", .arr
        [.obj [("date", .str "2025-01-20"), ("time", .str "14:30")]])]) = true ∧
    ∃ r, validate_meeting_suggestions (.obj [("suggestions", .arr
        [.obj [("date", .str "2025-01-20"), ("time", .str "14:30")]])]) = .ok r :=
  ⟨rfl, validator_total_on_safe_inputs _ rfl⟩

/- ### Event link generation, `event_link_generator.py`

`generate_suggestion_id` hashes `f"{date}_{time}_{user1}_{user2}"` with MD5
(RFC 1321, implemented below over byte lists) and keeps the first 8 hex
digits.  `add_event_links_to_suggestions` copies each suggestion dict and
adds the `event_id` and `event_link` keys; the model covers the
string-valued `date`/`time` case (the shape of validated suggestions —
Python would stringify other values inside the f-string). -/

/-- The constant `2^32`, the MD5 word modulus. -/
def w32 : Nat := 4294967296

/-- The 64 MD5 round constants `K[i] = floor(abs(sin(i+1)) * 2^32)`. -/
def md5K : List Nat :=
  [3614090360, 3905402710, 606105819, 3250441966, 4118548399, 1200080426,
   2821735955, 4249261313, 1770035416, 2336552879, 4294925233, 2304563134,
   1804603682, 4254626195, 2792965006, 1236535329, 4129170786, 3225465664,
   643717713, 3921069994, 3593408605, 38016083, 3634488961, 3889429448,
   568446438, 3275163606, 4107603335, 1163531501, 2850285829, 4243563512,
   1735328473, 2368359562, 4294588738, 2272392833, 1839030562, 4259657740,
   2763975236, 1272893353, 4139469664, 3200236656, 681279174, 3936430074,
   3572445317, 76029189, 3654602809, 3873151461, 530742520, 3299628645,
   4096336452, 1126891415, 2878612391, 4237533241, 1700485571, 2399980690,
   4293915773, 2240044497, 1873313359, 4264355552, 2734768916, 1309151649,
   4149444226, 3174756917, 718787259, 3951481745]

/-- The 64 MD5 per-round left-rotation amounts. -/
def md5S : List Nat :=
  [7, 12, 17, 22, 7, 12, 17, 22, 7, 12, 17, 22, 7, 12, 17, 22,
   5, 9, 14, 20, 5, 9, 14, 20, 5, 9, 14, 20, 5, 9, 14, 20,
   4, 11, 16, 23, 4, 11, 16, 23, 4, 11, 16, 23, 4, 11, 16, 23,
   6, 10, 15, 21, 6, 10, 15, 21, 6, 10, 15, 21, 6, 10, 15, 21]

/-- The 32-bit left rotation. -/
def rotl32 (x c : Nat) : Nat :=
  ((x <<< c) % w32) ||| (x >>> (32 - c))

/-- Little-endian byte rendering of `v` on `n` bytes. -/
def toLE (n v : Nat) : List Nat :=
  (List.range n).map (fun i => (v >>> (8 * i)) % 256)

/-- MD5 padding: a `0x80` byte, zeros to 56 mod 64, then the 64-bit
little-endian bit length. -/
def md5Pad (msg : List Nat) : List Nat :=
  msg ++ [128] ++
    List.replicate (((56 + 64) - (msg.length + 1) % 64) % 64) 0 ++
    toLE 8 ((8 * msg.length) % (2 ^ 64))

/-- Split a byte list into 64-byte chunks. -/
def chunksOf64 : List Nat → List (List Nat)
  | [] => []
  | b :: rest => ((b :: rest).take 64) :: chunksOf64 ((b :: rest).drop 64)
termination_by l => l.length
decreasing_by
  simp [List.length_drop]
  omega

/-- Byte at index `i` (0 when out of range). -/
def byteAt (l : List Nat) (i : Nat) : Nat :=
  (l.drop i).headD 0

/-- The `g`-th little-endian 32-bit word of a 64-byte chunk. -/
def chunkWord (c : List Nat) (g : Nat) : Nat :=
  byteAt c (4 * g) + 256 * byteAt c (4 * g + 1) +
    65536 * byteAt c (4 * g + 2) + 16777216 * byteAt c (4 * g + 3)

/-- The MD5 round function and message index for round `i`
(`~x` on 32 bits is `2^32 - 1 - x`). -/
def md5F (i b c d : Nat) : Nat × Nat :=
  if i < 16 then ((b &&& c) ||| ((w32 - 1 - b) &&& d), i)
  else if i < 32 then ((d &&& b) ||| ((w32 - 1 - d) &&& c), (5 * i + 1) % 16)
  else if i < 48 then (b ^^^ c ^^^ d, (3 * i + 5) % 16)
  else (c ^^^ (b ||| (w32 - 1 - d)), (7 * i) % 16)

/-- One MD5 round on the state `(A, B, C, D)`. -/
def md5Round (M : Nat → Nat) (st : Nat × Nat × Nat × Nat) (i : Nat) :
    Nat × Nat × Nat × Nat :=
  let F := (md5F i st.2.1 st.2.2.1 st.2.2.2).1
  let g := (md5F i st.2.1 st.2.2.1 st.2.2.2).2
  let newB := (st.2.1 +
    rotl32 ((st.1 + F + md5K.getD i 0 + M g) % w32) (md5S.getD i 0)) % w32
  (st.2.2.2, newB, st.2.1, st.2.2.1)

/-- Process one 64-byte chunk. -/
def md5Chunk (st : Nat × Nat × Nat × Nat) (c : List Nat) :
    Nat × Nat × Nat × Nat :=
  let r := (List.range 64).foldl (md5Round (chunkWord c)) st
  ((st.1 + r.1) % w32, (st.2.1 + r.2.1) % w32,
   (st.2.2.1 + r.2.2.1) % w32, (st.2.2.2 + r.2.2.2) % w32)

/-- The MD5 digest (16 bytes) of a byte list. -/
def md5Bytes (msg : List Nat) : List Nat :=
  let r := (chunksOf64 (md5Pad msg)).foldl md5Chunk
    (1732584193, 4023233417, 2562383102, 271733878)
  toLE 4 r.1 ++ toLE 4 r.2.1 ++ toLE 4 r.2.2.1 ++ toLE 4 r.2.2.2

/-- Lowercase hex digit. -/
def hexChar (n : Nat) : Char :=
  if n < 10 then Char.ofNat (48 + n) else Char.ofNat (87 + n)

/-- UTF-8 bytes of a string. -/
def strBytes (s : String) : List Nat :=
  s.toUTF8.toList.map (fun b => b.toNat)

/-- Model of `hashlib.md5(s.encode()).hexdigest()`. -/
def md5_hexdigest (s : String) : String :=
  ⟨(md5Bytes (strBytes s)).flatMap (fun b => [hexChar (b / 16), hexChar (b % 16)])⟩

/-- Model of `generate_suggestion_id(date, time, user1, user2)`. -/
def generate_suggestion_id (date time user1 user2 : String) : String :=
  "suggestion_" ++
    (md5_hexdigest (date ++ "_" ++ time ++ "_" ++ user1 ++ "_" ++ user2)).take 8

/-- Model of `generate_event_creation_link(suggestion_id, base_url)`. -/
def generate_event_creation_link (suggestion_id : String)
    (base_url : String) : String :=
  base_url ++ "/calendar/events/create-from-suggestion/" ++ suggestion_id

/-- Python dict indexing on a suggestion dict (`KeyError` when absent). -/
def dictIndexS (d : List (String × JSON)) (k : String) : Except PyErr JSON :=
  match lookupField d k with
  | some v => .ok v
  | none => .error .keyError

/-- Python dict assignment `d[k] = v`: replace in place when the key exists,
else append (insertion order). -/
def dictSet (d : List (String × JSON)) (k : String) (v : JSON) :
    List (String × JSON) :=
  if (lookupField d k).isSome then
    d.map (fun kv => if kv.1 = k then (k, v) else kv)
  else d ++ [(k, v)]

/-- The string value of a `date`/`time` lookup (the cases the model covers). -/
def strValOf : Option JSON → String
  | some (.str s) => s
  | _ => ""

/-- One iteration of `add_event_links_to_suggestions`: copy the suggestion,
generate its id from `date`/`time`, then set `event_id` and `event_link`. -/
def addLinkStep (user1_name user2_name base_url : String)
    (acc : List (List (String × JSON))) (suggestion : List (String × JSON)) :
    Except PyErr (List (List (String × JSON))) := do
  let d ← dictIndexS suggestion "date"
  let t ← dictIndexS suggestion "time"
  match d, t with
  | .str ds, .str ts =>
    pure (acc ++ [dictSet
      (dictSet suggestion "event_id"
        (.str (generate_suggestion_id ds ts user1_name user2_name)))
      "event_link"
      (.str (generate_event_creation_link
        (generate_suggestion_id ds ts user1_name user2_name) base_url))])
  | _, _ => .error .typeError

/-- Model of `add_event_links_to_suggestions(suggestions, user1_name, user2_name,
base_url)`: copy each suggestion, then add `event_id` and `event_link`. -/
def add_event_links_to_suggestions
    (suggestions : List (List (String × JSON)))
    (user1_name user2_name : String) (base_url : String) :
    Except PyErr (List (List (String × JSON))) :=
  suggestions.foldlM (addLinkStep user1_name user2_name base_url) []

/-- Setting an absent key appends it at the end. -/
theorem dictSet_absent (d : List (String × JSON)) (k : String) (v : JSON)
    (h : lookupField d k = none) : dictSet d k v = d ++ [(k, v)] := by
  simp [dictSet, h]

/-- Key lookup distributes over append, first list first. -/
theorem lookupField_append (a b : List (String × JSON)) (k : String) :
    lookupField (a ++ b) k = (lookupField a k).or (lookupField b k) := by
  simp [lookupField, List.find?_append]
  cases List.find? (fun kv => kv.1 = k) a <;> simp

/-- One step of the link-adding loop appends exactly the input dict extended
with the two new keys. -/
theorem addLinkStep_extends (u1 u2 base : String)
    (s : List (String × JSON)) (acc : List (List (String × JSON)))
    (ds ts : String)
    (hds : lookupField s "date" = some (.str ds))
    (hts : lookupField s "time" = some (.str ts))
    (hid : lookupField s "event_id" = none)
    (hlink : lookupField s "event_link" = none) :
    addLinkStep u1 u2 base acc s =
      .ok (acc ++ [s ++
        [("event_id", .str (generate_suggestion_id ds ts u1 u2)),
         ("event_link", .str (generate_event_creation_link
           (generate_suggestion_id ds ts u1 u2) base))]]) := by
  have h1 : dictSet s "event_id"
      (.str (generate_suggestion_id ds ts u1 u2)) =
      s ++ [("event_id", .str (generate_suggestion_id ds ts u1 u2))] :=
    dictSet_absent s "event_id" _ hid
  have h2 : lookupField (s ++
      [("event_id", .str (generate_suggestion_id ds ts u1 u2))])
      "event_link" = none := by
    rw [lookupField_append, hlink]
    rfl
  simp only [addLinkStep, dictIndexS, hds, hts, ok_bind, h1,
    dictSet_absent _ "event_link" _ h2]
  rw [List.append_assoc]
  rfl

/-- C10: on every list of suggestion dicts that carry string `date` and
`time` keys and do not yet carry `event_id`/`event_link`,
`add_event_links_to_suggestions` returns (without raising) the list in which
each output dict is exactly the corresponding input dict extended with the
two keys `event_id` and `event_link` at the end; being a pure fold over
copies, it leaves the input dicts unchanged. -/
theorem add_event_links_to_suggestions_extends
    (suggestions : List (List (String × JSON))) (u1 u2 base : String)
    (h : ∀ s ∈ suggestions,
      (∃ ds, lookupField s "date" = some (.str ds)) ∧
      (∃ ts, lookupField s "time" = some (.str ts)) ∧
      lookupField s "event_id" = none ∧ lookupField s "event_link" = none) :
    add_event_links_to_suggestions suggestions u1 u2 base =
      .ok (suggestions.map (fun s =>
        s ++ [("event_id", .str (generate_suggestion_id
                 (strValOf (lookupField s "date"))
                 (strValOf (lookupField s "time")) u1 u2)),
              ("event_link", .str (generate_event_creation_link
                 (generate_suggestion_id (strValOf (lookupField s "date"))
                   (strValOf (lookupField s "time")) u1 u2) base))])) := by
  suffices hgen : ∀ (l : List (List (String × JSON))),
      (∀ s ∈ l,
        (∃ ds, lookupField s "date" = some (.str ds)) ∧
        (∃ ts, lookupField s "time" = some (.str ts)) ∧
        lookupField s "event_id" = none ∧ lookupField s "event_link" = none) →
      ∀ acc, l.foldlM (addLinkStep u1 u2 base) acc =
        .ok (acc ++ l.map (fun s =>
          s ++ [("event_id", .str (generate_suggestion_id
                   (strValOf (lookupField s "date"))
                   (strValOf (lookupField s "time")) u1 u2)),
                ("event_link", .str (generate_event_creation_link
                   (generate_suggestion_id (strValOf (lookupField s "date"))
                     (strValOf (lookupField s "time")) u1 u2) base))])) by
    have := hgen suggestions h []
    simpa [add_event_links_to_suggestions] using this
  intro l
  induction l with
  | nil =>
    intro _ acc
    simp only [List.foldlM, List.map_nil, List.append_nil]
    rfl
  | cons s ss ih =>
    intro hl acc
    obtain ⟨⟨ds, hds⟩, ⟨ts, hts⟩, hid, hlink⟩ := hl s (List.mem_cons_self s ss)
    rw [List.foldlM_cons]
    rw [addLinkStep_extends u1 u2 base s acc ds ts hds hts hid hlink]
    rw [ok_bind]
    rw [ih (fun x hx => hl x (List.mem_cons_of_mem s hx))]
    simp [hds, hts, strValOf]

/-- Witness for C10 at a concrete one-element suggestion list. -/
theorem add_event_links_to_suggestions_extends_witness :
    add_event_links_to_suggestions
        [[("date", .str "2025-01-20"), ("time", .str "14:00")]]
        "phil" "chris" "" =
      .ok ([[("date", .str "2025-01-20"), ("time", .str "14:00")]].map
        (fun s =>
          s ++ [("event_id", .str (generate_suggestion_id
                   (strValOf (lookupField s "date"))
                   (strValOf (lookupField s "time")) "phil" "chris")),
                ("event_link", .str (generate_event_creation_link
                   (generate_suggestion_id (strValOf (lookupField s "date"))
                     (strValOf (lookupField s "time")) "phil" "chris") ""))])) := by
  apply add_event_links_to_suggestions_extends
  intro s hs
  rw [List.mem_singleton] at hs
  subst hs
  exact ⟨⟨"2025-01-20", rfl⟩, ⟨"14:00", rfl⟩, rfl, rfl⟩
